import Mathlib

/-!
Verification of the intraday signal engine (src/main.py) against its
natural-language specification.

The program is embedded shallowly over exact rationals:
- Python/numpy floats become `ℚ`; a value that the Python computation turns
  non-finite (NaN or ±infinity, e.g. through a division whose denominator is
  zero) is modelled as `none` in `Option ℚ`, written `NanQ`.  IEEE comparisons
  involving a non-finite value are `false`, which `nanGt`/`nanLt` reproduce.
- pandas/numpy data frames become Lean lists of structures; the session state
  (capital, positions, alerts) becomes explicit record-passing.
- The external collaborators excluded by the spec (market data download and
  the `ta` indicator library) are modelled at their documented boundary: an
  indicator series shorter than its lookback window yields an undefined
  (`none`) latest value, per the alignment contract of spec section 6.
-/

/-- Rational extended with `none` standing for a non-finite IEEE value
(NaN or ±infinity), as produced, e.g., by `0.0 / 0.0` in numpy. -/
abbrev NanQ : Type := Option ℚ

/-- Addition; any non-finite operand poisons the result (NaN propagation;
`inf + x` is also non-finite, so collapsing inf and NaN is sound here). -/
def nadd : NanQ → NanQ → NanQ
  | some a, some b => some (a + b)
  | _, _ => none

/-- Multiplication with NaN/inf propagation. -/
def nmul : NanQ → NanQ → NanQ
  | some a, some b => some (a * b)
  | _, _ => none

/-- True division: a zero denominator gives a non-finite result
(`0.0/0.0 = NaN`, `x/0.0 = ±inf` in numpy). -/
def ndiv : NanQ → NanQ → NanQ
  | some a, some b => if b = 0 then none else some (a / b)
  | _, _ => none

/-- Python float floor division `a // b`: `⌊a / b⌋` as a float; a zero
denominator or non-finite operand gives a non-finite result. -/
def nfdiv : NanQ → NanQ → NanQ
  | some a, some b => if b = 0 then none else some ((⌊a / b⌋ : ℤ) : ℚ)
  | _, _ => none

/-- `a > b` under IEEE semantics: false when either side is non-finite NaN.
(Only NaN reaches the comparisons below, never an infinity.) -/
def nanGt : Option ℚ → Option ℚ → Bool
  | some a, some b => decide (b < a)
  | _, _ => false

/-- `a < b` under IEEE NaN semantics. -/
def nanLt (a b : Option ℚ) : Bool := nanGt b a

-- SETTINGS (src/main.py lines 13-18)

/-- Configured initial capital. -/
def INITIAL_CAPITAL : ℚ := 100000

/-- Signals promoted to positions per exchange per cycle. -/
def TOP_N : Nat := 5

/-- Stop-loss percent (0.5 means 0.5%). -/
def STOP_LOSS : ℚ := 1 / 2

/-- Take-profit percent (1.0 means 1%). -/
def TAKE_PROFIT : ℚ := 1

/-- Trailing-stop ratchet enabled. -/
def TRAILING_STOP : Bool := true

/-- Result of `generate_signal`: direction (1 long, -1 short, 0 neutral),
the latest close used as reference price, and the strength score. -/
structure SignalResult where
  signal : Int
  price : ℚ
  score : ℚ
deriving DecidableEq

/-- src/main.py lines 38-51, `generate_signal`, as a function of the latest
bar's indicator values.  An indicator that the `ta` library left NaN (series
shorter than the window) is `none`; NaN comparisons are false, so both
branches fail and the default `signal = 0, score = 0` is returned.  In a
taken branch the guard forces every operand to be `some`, so `getD 0` reads
the actual value.  Denominators are assumed non-zero in the taken branches
(spec section 4.1 requires non-zero EMA denominators). -/
def generate_signal (ema10 ema30 rsi7 : Option ℚ) (close : ℚ) : SignalResult :=
  if nanGt ema10 ema30 && nanLt rsi7 (some 70) then
    { signal := 1, price := close,
      score := (ema10.getD 0 - ema30.getD 0) / ema30.getD 0 * 100 + (70 - rsi7.getD 0) }
  else if nanLt ema10 ema30 && nanGt rsi7 (some 30) then
    { signal := -1, price := close,
      score := (ema30.getD 0 - ema10.getD 0) / ema10.getD 0 * 100 + (rsi7.getD 0 - 30) }
  else
    { signal := 0, price := close, score := 0 }

-- External indicator collaborator (the `ta` library), modelled at the
-- boundary documented in spec section 6: pure functions over the close
-- series whose leading values are undefined until `period` bars accumulate,
-- so the latest value is defined iff the series is long enough.

/-- Last value of pandas `ewm(..., adjust=False).mean()`: the recursive
exponentially weighted mean `y ← (1-α)·y + α·x` seeded with the first value. -/
def ewmLast (alpha : ℚ) (seed : ℚ) (xs : List ℚ) : ℚ :=
  xs.foldl (fun y v => (1 - alpha) * y + alpha * v) seed

/-- Latest value of `ta.trend.ema_indicator(close, period)`:
`none` (NaN) when the series has fewer than `period` bars
(`min_periods = period`), otherwise the exponential moving average with
span `period`. -/
def emaLast (bars : List ℚ) (period : Nat) : Option ℚ :=
  match bars with
  | [] => none
  | x :: xs =>
    if (x :: xs).length < period then none
    else some (ewmLast (2 / ((period : ℚ) + 1)) x xs)

/-- Consecutive differences of the close series (`Series.diff(1)` with the
leading NaN dropped). -/
def diffs : List ℚ → List ℚ
  | x :: y :: xs => (y - x) :: diffs (y :: xs)
  | _ => []

/-- Latest value of `ta.momentum.rsi(close, period)` (Wilder smoothing of
gains and losses): `none` (NaN) when fewer than `period` differences exist;
when the smoothed loss is zero the IEEE ratio is `+inf` (RSI 100) or NaN
(`none`) when the smoothed gain is zero too.  Only the definedness boundary
of this collaborator matters to the theorems below. -/
def rsiLast (bars : List ℚ) (period : Nat) : Option ℚ :=
  let d := diffs bars
  if d.length < period then none
  else
    match d with
    | [] => none
    | u :: us =>
      let au := ewmLast (1 / (period : ℚ)) (max u 0) (us.map (fun x => max x 0))
      let ad := ewmLast (1 / (period : ℚ)) (max (-u) 0) (us.map (fun x => max (-x) 0))
      if ad = 0 then (if au = 0 then none else some 100)
      else some (100 - 100 / (1 + au / ad))

/-- One row of the per-exchange `results` data frame (src/main.py line 65);
the charting column `DF` is omitted (consumed only by the display sink). -/
structure ResultRow where
  Stock : String
  Signal : Int
  Price : ℚ
  Score : ℚ
deriving DecidableEq

/-- Scoring one fetched instrument: indicator columns are computed, then
`generate_signal` reads the last row.  `last["Close"]` is the final close;
callers guarantee the series is nonempty. -/
def scoreInstrument (bars : List ℚ) : SignalResult :=
  generate_signal (emaLast bars 10) (emaLast bars 30) (rsiLast bars 7) (bars.getLastD 0)

/-- src/main.py lines 56-68: the fetch-and-score loop over one exchange's
tickers.  Each instrument supplies its downloaded close series; an empty
download is skipped (`if df.empty: continue`), every other instrument is
scored and appended to `results`. -/
def fetchLoop : List (String × List ℚ) → List ResultRow
  | [] => []
  | (t, bars) :: rest =>
    if bars.isEmpty then fetchLoop rest
    else
      let r := scoreInstrument bars
      { Stock := t, Signal := r.signal, Price := r.price, Score := r.score } :: fetchLoop rest

-- RANKING (src/main.py line 80):
--   df[df["Signal"]==1].sort_values(by="Score", ascending=False).head(TOP_N)
-- pandas sorts a single column through nargsort: it computes an ASCENDING
-- argsort of the values (numpy's sort, which on sub-arrays this small is its
-- insertion sort - stable, an element moves left only past strictly greater
-- values) and, for ascending=False, REVERSES that index array.  The model
-- below reproduces exactly that: a stable ascending insertion sort followed
-- by a reversal, so equal scores come out in reverse input order.

/-- Insert a row into an ascending-by-Score list, after every element whose
score is less than or equal (numpy insertion sort moves an element left only
past strictly greater values, so equals keep their input order). -/
def insertAsc (a : ResultRow) : List ResultRow → List ResultRow
  | [] => [a]
  | b :: l => if a.Score < b.Score then a :: b :: l else b :: insertAsc a l

/-- Stable ascending insertion sort: rows are consumed in input order, each
inserted into the sorted accumulator. -/
def sortCore : List ResultRow → List ResultRow → List ResultRow
  | acc, [] => acc
  | acc, a :: l => sortCore (insertAsc a acc) l

/-- numpy's stable small-array ascending sort of the frame by Score. -/
def sortAscStable (l : List ResultRow) : List ResultRow := sortCore [] l

/-- pandas `sort_values(by="Score", ascending=False)`: the ascending argsort
reversed. -/
def sort_values_desc (l : List ResultRow) : List ResultRow :=
  (sortAscStable l).reverse

/-- src/main.py line 80: the Long rows (`Signal == 1`), sorted by Score
descending, truncated to the top `n` (`head(TOP_N)`). -/
def buy_signals (df : List ResultRow) (n : Nat) : List ResultRow :=
  (sort_values_desc (df.filter (fun r => r.Signal == 1))).take n

/-- Round half to even at integer precision (Python `round`). True CPython
rounds the binary double; this exact-rational model agrees with it off
representation artefacts, and no result below sits at a tie or artefact. -/
def roundHalfEven (q : ℚ) : ℤ :=
  if q - ⌊q⌋ < 1 / 2 then ⌊q⌋
  else if 1 / 2 < q - ⌊q⌋ then ⌊q⌋ + 1
  else if Even ⌊q⌋ then ⌊q⌋ else ⌊q⌋ + 1

/-- Python `round(x, 2)`. -/
def round2 (q : ℚ) : ℚ := ((roundHalfEven (q * 100) : ℤ) : ℚ) / 100

/-- One row of `df_top_signals` (src/main.py lines 85-91). -/
structure TopSignal where
  Stock : String
  BuyPrice : ℚ
  SellPrice : ℚ
  Score : ℚ
deriving DecidableEq

/-- src/main.py lines 82-91: a buy-signal row becomes a top-signal row with
price and score rounded to two decimals and the target sell price derived
from the unrounded buy price. -/
def mkTopSignal (r : ResultRow) : TopSignal :=
  { Stock := r.Stock,
    BuyPrice := round2 r.Price,
    SellPrice := round2 (r.Price * (1 + TAKE_PROFIT / 100)),
    Score := round2 r.Score }

/-- The `df_top_signals` frame for one exchange. -/
def top_signals (df : List ResultRow) : List TopSignal :=
  (buy_signals df TOP_N).map mkTopSignal

-- POSITIONS AND THE OPEN LOOP (src/main.py lines 95-113)

/-- Position status. -/
inductive Status where
  | Open
  | Closed
deriving DecidableEq

/-- One position lot (the dict literal at src/main.py lines 105-112).
`shares` is `NanQ` because the allocation arithmetic can produce a
non-finite value (see the degenerate zero-score case). -/
structure Position where
  entry : ℚ
  shares : NanQ
  status : Status
  stop_loss : ℚ
  take_profit : ℚ
  trailing_stop : ℚ
deriving DecidableEq

/-- Lifecycle events recorded in `st.session_state.alerts`; the formatted
strings of the source carry exactly the ticker, the price and which of the
three messages fired, which is what this type keeps. -/
inductive Alert where
  | opened (ticker : String) (price : ℚ)
  | closedTrailing (ticker : String) (price : ℚ)
  | closedTP (ticker : String) (price : ℚ)
deriving DecidableEq

/-- The dict literal appended at src/main.py lines 105-112: a fresh Open
position at `price` with stop-loss, take-profit and initial trailing stop
derived from the configured percentages. -/
def mkPosition (price : ℚ) (sh : NanQ) : Position :=
  { entry := price,
    shares := sh,
    status := Status.Open,
    stop_loss := price * (1 - STOP_LOSS / 100),
    take_profit := price * (1 + TAKE_PROFIT / 100),
    trailing_stop := price * (1 - STOP_LOSS / 100) }

/-- `st.session_state.positions`: an insertion-ordered mapping from ticker
to its lot sequence, as an association list. -/
abbrev PositionsMap : Type := List (String × List Position)

/-- src/main.py lines 103-105: create the ticker's (empty) lot list if
absent, then append the new lot at its end. -/
def appendLot (m : PositionsMap) (t : String) (p : Position) : PositionsMap :=
  match m with
  | [] => [(t, [p])]
  | (k, l) :: rest =>
    if k = t then (k, l ++ [p]) :: rest else (k, l) :: appendLot rest t p

/-- Dict lookup: the lot sequence held for a ticker ([] when absent). -/
def lots (m : PositionsMap) (t : String) : List Position :=
  match m with
  | [] => []
  | (k, l) :: rest => if k = t then l else lots rest t

/-- The engine's mutable session state touched by the open loop. -/
structure OpenState where
  capital : NanQ
  positions : PositionsMap
  alerts : List Alert
deriving DecidableEq

/-- src/main.py line 96: `df_top_signals["Score"].sum() if not
df_top_signals.empty else 1` - the guard tests EMPTINESS, not a zero sum. -/
def total_score (df : List TopSignal) : ℚ :=
  if df.isEmpty then 1 else (df.map TopSignal.Score).sum

/-- src/main.py line 101: `capital * (score / total_score)`. -/
def allocationOf (capital : NanQ) (df : List TopSignal) (row : TopSignal) : NanQ :=
  nmul capital (ndiv (some row.Score) (some (total_score df)))

/-- src/main.py line 102: `shares = allocation // price`. -/
def sharesOf (capital : NanQ) (df : List TopSignal) (row : TopSignal) : NanQ :=
  nfdiv (allocationOf capital df row) (some row.BuyPrice)

/-- src/main.py lines 96-113: for every top-signal row, in order: size the
allocation against the CURRENT capital (which this loop never writes, so it
is the cycle-start capital throughout), append the new Open lot, and append
the "New BUY position" alert.  No statement in the loop body mutates
`capital`. -/
def open_loop (st : OpenState) (df : List TopSignal) : OpenState :=
  df.foldl
    (fun s row =>
      { capital := s.capital,
        positions := appendLot s.positions row.Stock
          (mkPosition row.BuyPrice (sharesOf s.capital df row)),
        alerts := s.alerts ++ [Alert.opened row.Stock row.BuyPrice] })
    st

-- EXIT EVALUATION (src/main.py lines 143-167)

/-- The session state threaded through the exit-check loop. -/
structure ExitState where
  capital : NanQ
  alerts : List Alert
deriving DecidableEq

/-- src/main.py lines 154-155: when trailing is enabled, ratchet the
trailing stop to `max(trailing_stop, price * (1 - STOP_LOSS/100))`. -/
def ratchet (pos : Position) (p : ℚ) : Position :=
  if TRAILING_STOP then
    { pos with trailing_stop := max pos.trailing_stop (p * (1 - STOP_LOSS / 100)) }
  else pos

/-- src/main.py lines 152-167: evaluate one position against the latest
price.  A position whose status is not Open is left untouched (the
`if pos["status"]=="open"` guard).  An Open position is first ratcheted,
then closed by trailing stop when `price <= trailing_stop` (crediting
`shares * price` and logging a Trailing Stop alert), else closed by take
profit when `price >= take_profit` (same credit, Take-Profit alert), else
left Open. -/
def check_position (t : String) (p : ℚ) : ExitState × Position → ExitState × Position
  | (st, pos) =>
    if pos.status = Status.Open then
      let pos1 := ratchet pos p
      if p ≤ pos1.trailing_stop then
        ({ capital := nadd st.capital (nmul pos1.shares (some p)),
           alerts := st.alerts ++ [Alert.closedTrailing t p] },
         { pos1 with status := Status.Closed })
      else if pos1.take_profit ≤ p then
        ({ capital := nadd st.capital (nmul pos1.shares (some p)),
           alerts := st.alerts ++ [Alert.closedTP t p] },
         { pos1 with status := Status.Closed })
      else (st, pos1)
    else (st, pos)

/-- A sequence of exit evaluations of the same position across successive
cycles, one latest price per cycle. -/
def check_many (t : String) (prices : List ℚ) (sp : ExitState × Position) :
    ExitState × Position :=
  prices.foldl (fun sp p => check_position t p sp) sp

-- CONCRETE DATA used by witnesses and counterexamples

/-- Two Long rows with equal Score and distinct tickers, exhibiting tie
order in the ranking. -/
def rowTieA : ResultRow := { Stock := "A", Signal := 1, Price := 10, Score := 5 }

/-- Second of the two equal-score rows. -/
def rowTieB : ResultRow := { Stock := "B", Signal := 1, Price := 20, Score := 5 }

/-- A top-signal row whose rounded Score is zero (reachable: a raw Long
score of 1/250 = 0.004 rounds to 0.00). -/
def zeroScoreSignal : TopSignal :=
  { Stock := "X", BuyPrice := 100, SellPrice := 101, Score := 0 }

/-- A single ordinary top-signal row. -/
def demoSignal : TopSignal :=
  { Stock := "A", BuyPrice := 100, SellPrice := 101, Score := 25 }

/-- Scenario-C candidate set: strengths 30 and 10. -/
def scenC : List TopSignal :=
  [{ Stock := "A", BuyPrice := 100, SellPrice := 101, Score := 30 },
   { Stock := "B", BuyPrice := 50, SellPrice := 50.5, Score := 10 }]

-- HELPER LEMMAS

/-- The ratchet never touches the share count. -/
theorem ratchet_shares (pos : Position) (p : ℚ) : (ratchet pos p).shares = pos.shares := by
  unfold ratchet; split <;> rfl

/-- The ratchet never touches the status. -/
theorem ratchet_status (pos : Position) (p : ℚ) : (ratchet pos p).status = pos.status := by
  unfold ratchet; split <;> rfl

/-- The ratchet never touches the stop loss. -/
theorem ratchet_stop_loss (pos : Position) (p : ℚ) :
    (ratchet pos p).stop_loss = pos.stop_loss := by
  unfold ratchet; split <;> rfl

/-- The ratchet never touches the take profit. -/
theorem ratchet_take_profit (pos : Position) (p : ℚ) :
    (ratchet pos p).take_profit = pos.take_profit := by
  unfold ratchet; split <;> rfl

/-- With the configured `TRAILING_STOP = true`, the ratchet sets the
trailing stop to the max of its old value and `price * (1 - 0.5/100)`. -/
theorem ratchet_trailing (pos : Position) (p : ℚ) :
    (ratchet pos p).trailing_stop = max pos.trailing_stop (p * (1 - STOP_LOSS / 100)) := rfl

/-- A non-Open position is left completely untouched by an exit check. -/
theorem check_position_closed (t : String) (p : ℚ) (st : ExitState) (pos : Position)
    (h : pos.status = Status.Closed) : check_position t p (st, pos) = (st, pos) := by
  simp [check_position, h]

/-- A non-Open position is left untouched by any sequence of exit checks. -/
theorem check_many_closed (t : String) (prices : List ℚ) (st : ExitState) (pos : Position)
    (h : pos.status = Status.Closed) : check_many t prices (st, pos) = (st, pos) := by
  induction prices with
  | nil => rfl
  | cons p ps ih =>
    show check_many t ps (check_position t p (st, pos)) = (st, pos)
    rw [check_position_closed t p st pos h]
    exact ih

/-- An Open position's trailing stop after one exit check is exactly the
ratcheted value, whichever branch fires. -/
theorem check_position_trailing (t : String) (p : ℚ) (st : ExitState) (pos : Position)
    (h : pos.status = Status.Open) :
    (check_position t p (st, pos)).2.trailing_stop
      = max pos.trailing_stop (p * (1 - STOP_LOSS / 100)) := by
  simp only [check_position, h, if_true]
  split
  · rw [ratchet_trailing]
  · split
    · rw [ratchet_trailing]
    · rw [ratchet_trailing]

/-- One exit check never decreases the trailing stop. -/
theorem check_position_trailing_le (t : String) (p : ℚ) (sp : ExitState × Position) :
    sp.2.trailing_stop ≤ (check_position t p sp).2.trailing_stop := by
  obtain ⟨st, pos⟩ := sp
  by_cases h : pos.status = Status.Open
  · rw [check_position_trailing t p st pos h]
    exact le_max_left _ _
  · have hc : pos.status = Status.Closed := by
      cases hs : pos.status
      · exact absurd hs h
      · rfl
    rw [check_position_closed t p st pos hc]

/-- One exit check never changes the recorded stop loss. -/
theorem check_position_stop_loss (t : String) (p : ℚ) (sp : ExitState × Position) :
    (check_position t p sp).2.stop_loss = sp.2.stop_loss := by
  obtain ⟨st, pos⟩ := sp
  simp only [check_position]
  split
  · split
    · exact ratchet_stop_loss pos p
    · split
      · exact ratchet_stop_loss pos p
      · exact ratchet_stop_loss pos p
  · rfl

/-- Exit checks across any price sequence never decrease the trailing stop. -/
theorem check_many_trailing_le (t : String) (prices : List ℚ) :
    ∀ sp : ExitState × Position,
      sp.2.trailing_stop ≤ (check_many t prices sp).2.trailing_stop := by
  induction prices with
  | nil => intro sp; exact le_refl _
  | cons p ps ih =>
    intro sp
    exact le_trans (check_position_trailing_le t p sp)
      (ih (check_position t p sp))

/-- Exit checks across any price sequence never change the stop loss. -/
theorem check_many_stop_loss (t : String) (prices : List ℚ) :
    ∀ sp : ExitState × Position,
      (check_many t prices sp).2.stop_loss = sp.2.stop_loss := by
  induction prices with
  | nil => intro sp; rfl
  | cons p ps ih =>
    intro sp
    rw [show check_many t (p :: ps) sp = check_many t ps (check_position t p sp) from rfl,
      ih (check_position t p sp), check_position_stop_loss]

/-- Any fold whose step preserves the capital field preserves it overall. -/
theorem foldl_capital_fixed (f : OpenState → TopSignal → OpenState)
    (h : ∀ s row, (f s row).capital = s.capital) :
    ∀ (l : List TopSignal) (st : OpenState), (List.foldl f st l).capital = st.capital := by
  intro l
  induction l with
  | nil => intro st; rfl
  | cons a t ih => intro st; rw [List.foldl_cons, ih, h]

/-- C1: the claim says opening a position debits cash by shares x entry
price in the same step as the position is appended; the open loop in fact
NEVER writes `st.session_state.capital` - capital is unchanged by any open,
while the position (here with 1000 shares at price 100) is appended. -/
theorem open_loop_never_debits :
    (∀ (st : OpenState) (df : List TopSignal), (open_loop st df).capital = st.capital)
    ∧ (open_loop { capital := some 100000, positions := [], alerts := [] }
        [demoSignal]).capital = some 100000
    ∧ lots (open_loop { capital := some 100000, positions := [], alerts := [] }
        [demoSignal]).positions "A" = [mkPosition 100 (some 1000)] := by
  refine ⟨?_, ?_, ?_⟩
  · intro st df
    unfold open_loop
    exact foldl_capital_fixed
      (fun s row =>
        { capital := s.capital,
          positions := appendLot s.positions row.Stock
            (mkPosition row.BuyPrice (sharesOf s.capital df row)),
          alerts := s.alerts ++ [Alert.opened row.Stock row.BuyPrice] })
      (fun s row => rfl) df st
  · rfl
  · simp only [open_loop, List.foldl, appendLot, lots, demoSignal, sharesOf, allocationOf,
      total_score, ndiv, nmul, nfdiv, mkPosition]
    norm_num

/-- C2: a Closed position is skipped untouched by one exit check and by any
sequence of exit checks (so it is closed at most once and never mutated or
re-settled); and when an Open position does transition to Closed in a check,
the same step credits capital by exactly shares x latest price. -/
theorem close_settles_exactly_once (t : String) (p : ℚ) (st : ExitState)
    (pos : Position) (prices : List ℚ) (c s : ℚ) :
    (pos.status = Status.Closed → check_position t p (st, pos) = (st, pos))
    ∧ (pos.status = Status.Closed → check_many t prices (st, pos) = (st, pos))
    ∧ (pos.status = Status.Open → pos.shares = some s → st.capital = some c →
        (check_position t p (st, pos)).2.status = Status.Closed →
        (check_position t p (st, pos)).1.capital = some (c + s * p)) := by
  refine ⟨fun h => check_position_closed t p st pos h,
    fun h => check_many_closed t prices st pos h, ?_⟩
  intro ho hs hc hclosed
  simp only [check_position, ho, if_true]
  by_cases h1 : p ≤ (ratchet pos p).trailing_stop
  · rw [if_pos h1]
    simp [nadd, nmul, ratchet_shares, hs, hc]
  · rw [if_neg h1]
    by_cases h2 : (ratchet pos p).take_profit ≤ p
    · rw [if_pos h2]
      simp [nadd, nmul, ratchet_shares, hs, hc]
    · exfalso
      simp only [check_position, ho, if_true, if_neg h1, if_neg h2] at hclosed
      rw [ratchet_status pos p, ho] at hclosed
      exact absurd hclosed (by simp)

/-- Witness for C2 at concrete inputs: a Closed lot is untouched across two
further cycles, and an Open lot of 2 shares closing at price 99 credits
capital from 100 to 100 + 2 x 99. -/
theorem close_settles_exactly_once_witness :
    check_many "X" [101, 99] ({ capital := some 5, alerts := [] },
        { entry := 100, shares := some 2, status := Status.Closed,
          stop_loss := 99.5, take_profit := 101, trailing_stop := 99.5 })
      = ({ capital := some 5, alerts := [] },
        { entry := 100, shares := some 2, status := Status.Closed,
          stop_loss := 99.5, take_profit := 101, trailing_stop := 99.5 })
    ∧ (check_position "X" 99 ({ capital := some 100, alerts := [] },
        mkPosition 100 (some 2))).1.capital = some (100 + 2 * 99) := by
  have h1 := close_settles_exactly_once "X" 101
    { capital := some 5, alerts := [] }
    { entry := 100, shares := some 2, status := Status.Closed,
      stop_loss := 99.5, take_profit := 101, trailing_stop := 99.5 }
    [101, 99] 5 2
  have h2 := close_settles_exactly_once "X" 99
    { capital := some 100, alerts := [] } (mkPosition 100 (some 2)) [] 100 2
  exact ⟨h1.2.1 rfl, h2.2.2 rfl rfl rfl (by
    simp only [check_position, mkPosition, ratchet, TRAILING_STOP, if_true, STOP_LOSS,
      TAKE_PROFIT]
    norm_num [max_def])⟩

/-- C3: while a position is Open, each exit check sets its trailing stop to
max(current trailing stop, price x (1 - 0.5/100)); the trailing stop never
decreases across any sequence of exit checks; and the stop loss recorded at
entry is never changed by any exit check. -/
theorem trailing_monotone_stop_fixed (t : String) (p : ℚ) (st : ExitState)
    (pos : Position) (prices : List ℚ) :
    (pos.status = Status.Open →
      (check_position t p (st, pos)).2.trailing_stop
        = max pos.trailing_stop (p * (1 - STOP_LOSS / 100)))
    ∧ (check_position t p (st, pos)).2.stop_loss = pos.stop_loss
    ∧ pos.trailing_stop ≤ (check_many t prices (st, pos)).2.trailing_stop
    ∧ (check_many t prices (st, pos)).2.stop_loss = pos.stop_loss := by
  exact ⟨fun h => check_position_trailing t p st pos h,
    check_position_stop_loss t p (st, pos),
    check_many_trailing_le t prices (st, pos),
    check_many_stop_loss t prices (st, pos)⟩

/-- Witness for C3: a fresh lot at 100 checked at price 103 ratchets its
trailing stop from 99.5 to 102.485 while its stop loss stays 99.5. -/
theorem trailing_monotone_stop_fixed_witness :
    (mkPosition 100 (some 1)).trailing_stop = 99.5
    ∧ (check_position "X" 103 ({ capital := some 0, alerts := [] },
        mkPosition 100 (some 1))).2.trailing_stop
      = max (mkPosition 100 (some 1)).trailing_stop (103 * (1 - STOP_LOSS / 100))
    ∧ (check_many "X" [103, 102] ({ capital := some 0, alerts := [] },
        mkPosition 100 (some 1))).2.stop_loss = (mkPosition 100 (some 1)).stop_loss := by
  have h := trailing_monotone_stop_fixed "X" 103
    { capital := some 0, alerts := [] } (mkPosition 100 (some 1)) [103, 102]
  exact ⟨by norm_num [mkPosition, STOP_LOSS], h.1 rfl, h.2.2.2⟩

/-- C5: with EMA_short > EMA_long (the long EMA positive, as for any price
series) and RSI < 70, the scorer goes Long with strength
(EMA_short - EMA_long)/EMA_long x 100 + (70 - RSI), which is strictly
positive; EMA10=105, EMA30=100, RSI7=50 scores exactly 25. -/
theorem long_signal_strength (e10 e30 r7 c : ℚ)
    (h30 : 0 < e30) (hgt : e30 < e10) (hrsi : r7 < 70) :
    generate_signal (some e10) (some e30) (some r7) c
      = { signal := 1, price := c, score := (e10 - e30) / e30 * 100 + (70 - r7) }
    ∧ 0 < (e10 - e30) / e30 * 100 + (70 - r7)
    ∧ generate_signal (some 105) (some 100) (some 50) c
      = { signal := 1, price := c, score := 25 } := by
  refine ⟨?_, ?_, ?_⟩
  · simp [generate_signal, nanGt, nanLt, hgt, hrsi]
  · have h1 : 0 < (e10 - e30) / e30 := div_pos (by linarith) h30
    nlinarith
  · norm_num [generate_signal, nanGt, nanLt]

/-- Witness for C5 at the spec's scenario A numbers. -/
theorem long_signal_strength_witness :
    generate_signal (some 105) (some 100) (some 50) 7
      = { signal := 1, price := 7, score := 25 }
    ∧ (0:ℚ) < (105 - 100) / 100 * 100 + (70 - 50) := by
  have h := long_signal_strength 105 100 50 7 (by norm_num) (by norm_num) (by norm_num)
  exact ⟨h.2.2, h.2.1⟩

/-- C4 counterexample: the claim's scenario B fails on the code.  A position
entered at 100.00 evaluated at 103.00 is closed immediately by TAKE-PROFIT
at 103.00 (103 >= 101), even though the trailing stop did ratchet to
102.485; the subsequent evaluation at 102.00 is a no-op on the Closed
position, so no TrailingStop close at 102.00 ever happens. -/
theorem scenario_b_fails :
    check_many "X" [103, 102] ({ capital := some 0, alerts := [] }, mkPosition 100 (some 1))
      = ({ capital := some 103, alerts := [Alert.closedTP "X" 103] },
         { entry := 100, shares := some 1, status := Status.Closed,
           stop_loss := 99.5, take_profit := 101, trailing_stop := 102.485 })
    ∧ Alert.closedTrailing "X" 102
        ∉ (check_many "X" [103, 102]
            ({ capital := some 0, alerts := [] }, mkPosition 100 (some 1))).1.alerts := by
  have hstep : check_position "X" 103
      ({ capital := some 0, alerts := [] }, mkPosition 100 (some 1))
      = ({ capital := some 103, alerts := [Alert.closedTP "X" 103] },
         { entry := 100, shares := some 1, status := Status.Closed,
           stop_loss := 99.5, take_profit := 101, trailing_stop := 102.485 }) := by
    simp only [check_position, mkPosition, ratchet, TRAILING_STOP, if_true, STOP_LOSS,
      TAKE_PROFIT, nadd, nmul]
    norm_num [max_def]
  have hmany : check_many "X" [103, 102]
      ({ capital := some 0, alerts := [] }, mkPosition 100 (some 1))
      = ({ capital := some 103, alerts := [Alert.closedTP "X" 103] },
         { entry := 100, shares := some 1, status := Status.Closed,
           stop_loss := 99.5, take_profit := 101, trailing_stop := 102.485 }) := by
    simp only [check_many, List.foldl]
    rw [hstep, check_position_closed _ _ _ _ rfl]
  refine ⟨hmany, ?_⟩
  rw [hmany]
  simp

/-- C4 (amended): the exit check does test the trailing stop strictly before
the take profit (when BOTH the ratcheted trailing-stop condition and the
take-profit condition hold, the close is logged as TrailingStop); a position
entered at 100.00 starts with stopLoss 99.50, takeProfit 101.00,
trailingStop 99.50.  Evaluated at 103.00 its trailing stop ratchets to
102.485 but the position closes in the SAME evaluation by TakeProfit at
103.00; the next evaluation at 102.00 leaves it unchanged. -/
theorem trailing_checked_first (t : String) (p : ℚ) (st : ExitState) (pos : Position)
    (ho : pos.status = Status.Open)
    (htr : p ≤ max pos.trailing_stop (p * (1 - STOP_LOSS / 100)))
    (htp : pos.take_profit ≤ p) :
    (check_position t p (st, pos)).1.alerts = st.alerts ++ [Alert.closedTrailing t p]
    ∧ (check_position t p (st, pos)).2.status = Status.Closed
    ∧ mkPosition 100 (some 1)
      = { entry := 100, shares := some 1, status := Status.Open,
          stop_loss := 99.5, take_profit := 101, trailing_stop := 99.5 }
    ∧ check_position "X" 103 ({ capital := some 0, alerts := [] }, mkPosition 100 (some 1))
      = ({ capital := some 103, alerts := [Alert.closedTP "X" 103] },
         { entry := 100, shares := some 1, status := Status.Closed,
           stop_loss := 99.5, take_profit := 101, trailing_stop := 102.485 })
    ∧ check_position "X" 102
        ({ capital := some 103, alerts := [Alert.closedTP "X" 103] },
         { entry := 100, shares := some 1, status := Status.Closed,
           stop_loss := 99.5, take_profit := 101, trailing_stop := 102.485 })
      = ({ capital := some 103, alerts := [Alert.closedTP "X" 103] },
         { entry := 100, shares := some 1, status := Status.Closed,
           stop_loss := 99.5, take_profit := 101, trailing_stop := 102.485 }) := by
  have h1 : p ≤ (ratchet pos p).trailing_stop := by
    rw [ratchet_trailing]; exact htr
  refine ⟨?_, ?_, ?_, ?_, check_position_closed _ _ _ _ rfl⟩
  · simp only [check_position, ho, if_true, if_pos h1]
  · simp only [check_position, ho, if_true, if_pos h1]
  · simp only [mkPosition, STOP_LOSS, TAKE_PROFIT, Position.mk.injEq]
    norm_num
  · simp only [check_position, mkPosition, ratchet, TRAILING_STOP, if_true, STOP_LOSS,
      TAKE_PROFIT, nadd, nmul]
    norm_num [max_def]

/-- Witness for C4's tie-break clause: a position whose trailing stop (103)
and take profit (101) are both crossed by price 101 closes by TrailingStop,
not TakeProfit. -/
theorem trailing_checked_first_witness :
    (check_position "X" 101 ({ capital := some 0, alerts := [] },
        { entry := 100, shares := some 1, status := Status.Open,
          stop_loss := 99.5, take_profit := 101, trailing_stop := 103 })).1.alerts
      = [] ++ [Alert.closedTrailing "X" 101]
    ∧ (check_position "X" 101 ({ capital := some 0, alerts := [] },
        { entry := 100, shares := some 1, status := Status.Open,
          stop_loss := 99.5, take_profit := 101, trailing_stop := 103 })).2.status
      = Status.Closed := by
  have h := trailing_checked_first "X" 101 { capital := some 0, alerts := [] }
    { entry := 100, shares := some 1, status := Status.Open,
      stop_loss := 99.5, take_profit := 101, trailing_stop := 103 }
    rfl (by norm_num [STOP_LOSS, max_def]) (by norm_num)
  exact ⟨h.1, h.2.1⟩

/-- C9: the degenerate-allocation guard tests only EMPTINESS
(`if not df_top_signals.empty else 1`), so a NON-empty candidate set whose
(rounded) strengths are all zero - reachable, since a raw Long score of
1/250 rounds to 0.00 - is not skipped: total_score is 0, the loop runs,
allocation evaluates 100000 x (0/0), a non-finite (NaN) value, and a
position with non-finite shares is appended.  The claim (and spec section
4.3) instead require sizing to be skipped with no division by zero. -/
theorem zero_sum_not_skipped :
    round2 (1 / 250) = 0
    ∧ total_score [zeroScoreSignal] = 0
    ∧ allocationOf (some 100000) [zeroScoreSignal] zeroScoreSignal = none
    ∧ open_loop { capital := some 100000, positions := [], alerts := [] } [zeroScoreSignal]
      = { capital := some 100000,
          positions := [("X", [mkPosition 100 none])],
          alerts := [Alert.opened "X" 100] } := by
  refine ⟨?_, by norm_num [total_score, zeroScoreSignal], ?_, ?_⟩
  · norm_num [round2, roundHalfEven]
  · simp [allocationOf, ndiv, nmul, total_score, zeroScoreSignal]
  · simp [open_loop, List.foldl, appendLot, sharesOf, allocationOf, total_score,
      ndiv, nmul, nfdiv, zeroScoreSignal, mkPosition]

/-- C8 counterexample: an instrument with a nonempty series of 5 bars -
fewer than the longest (30-bar) lookback window, so every indicator is
undefined - is NOT excluded from the cycle's scored signals: it is appended
to `results` with the default Neutral score (Signal 0, Score 0). -/
theorem short_series_still_scored :
    fetchLoop [("X", [1, 2, 3, 4, 5])]
      = [{ Stock := "X", Signal := 0, Price := 5, Score := 0 }]
    ∧ fetchLoop [("X", [1, 2, 3, 4, 5])] ≠ [] := by
  refine ⟨?_, ?_⟩
  · norm_num [fetchLoop, scoreInstrument, emaLast, rsiLast, diffs, generate_signal,
      nanGt, nanLt]
  · intro h
    simp [fetchLoop, scoreInstrument, emaLast, rsiLast, diffs, generate_signal,
      nanGt, nanLt] at h

/-- Inserting a row permutes consing it. -/
theorem insertAsc_perm (a : ResultRow) (l : List ResultRow) :
    List.Perm (insertAsc a l) (a :: l) := by
  induction l with
  | nil => rfl
  | cons b l ih =>
    simp only [insertAsc]
    by_cases h : a.Score < b.Score
    · rw [if_pos h]
    · rw [if_neg h]
      exact (ih.cons b).trans (List.Perm.swap a b l)

/-- Insertion preserves ascending sortedness by Score. -/
theorem insertAsc_pairwise (a : ResultRow) (l : List ResultRow)
    (h : l.Pairwise (fun x y => x.Score ≤ y.Score)) :
    (insertAsc a l).Pairwise (fun x y => x.Score ≤ y.Score) := by
  induction l with
  | nil => simp [insertAsc]
  | cons b l ih =>
    rw [List.pairwise_cons] at h
    obtain ⟨hb, hl⟩ := h
    simp only [insertAsc]
    by_cases hab : a.Score < b.Score
    · rw [if_pos hab, List.pairwise_cons]
      refine ⟨?_, List.pairwise_cons.mpr ⟨hb, hl⟩⟩
      intro x hx
      rcases List.mem_cons.mp hx with rfl | hx
      · exact le_of_lt hab
      · exact le_trans (le_of_lt hab) (hb x hx)
    · rw [if_neg hab, List.pairwise_cons]
      refine ⟨?_, ih hl⟩
      intro x hx
      rcases List.mem_cons.mp ((insertAsc_perm a l).mem_iff.mp hx) with rfl | hx
      · exact not_lt.mp hab
      · exact hb x hx

/-- In a sorted list whose head's score already exceeds `q`, no row scores
`q`. -/
theorem filter_score_nil (q : ℚ) (b : ResultRow) (l : List ResultRow)
    (hhead : ∀ x ∈ l, b.Score ≤ x.Score) (hq : q < b.Score) :
    l.filter (fun r => r.Score == q) = [] := by
  apply List.filter_eq_nil_iff.mpr
  intro x hx
  have : q < x.Score := lt_of_lt_of_le hq (hhead x hx)
  simp only [beq_iff_eq]
  exact fun hxq => absurd (hxq ▸ this) (lt_irrefl q)

/-- STABILITY: inserting into a sorted list puts the new row after every
existing row of equal score, so the equal-score subsequence just gains the
new row at its end. -/
theorem insertAsc_filter (q : ℚ) (a : ResultRow) (l : List ResultRow)
    (h : l.Pairwise (fun x y => x.Score ≤ y.Score)) :
    (insertAsc a l).filter (fun r => r.Score == q)
      = if a.Score = q then l.filter (fun r => r.Score == q) ++ [a]
        else l.filter (fun r => r.Score == q) := by
  induction l with
  | nil =>
    by_cases hq : a.Score = q <;> simp [insertAsc, hq]
  | cons b l ih =>
    rw [List.pairwise_cons] at h
    obtain ⟨hb, hl⟩ := h
    simp only [insertAsc]
    by_cases hab : a.Score < b.Score
    · rw [if_pos hab]
      by_cases hq : a.Score = q
      · have hnil : (b :: l).filter (fun r => r.Score == q) = [] := by
          apply filter_score_nil q b (b :: l)
          · intro x hx
            rcases List.mem_cons.mp hx with rfl | hx
            · exact le_refl _
            · exact hb x hx
          · exact hq ▸ hab
        rw [if_pos hq, hnil, List.nil_append, List.filter_cons_of_pos (by simp [hq]), hnil]
      · rw [if_neg hq, List.filter_cons_of_neg (by simp [hq])]
    · rw [if_neg hab]
      by_cases hbq : b.Score = q
      · rw [List.filter_cons_of_pos (by simp [hbq]), List.filter_cons_of_pos (by simp [hbq]),
          ih hl]
        by_cases hq : a.Score = q
        · rw [if_pos hq, if_pos hq, List.cons_append]
        · rw [if_neg hq, if_neg hq]
      · rw [List.filter_cons_of_neg (by simp [hbq]), List.filter_cons_of_neg (by simp [hbq]),
          ih hl]

/-- The insertion sort permutes accumulator-plus-input. -/
theorem sortCore_perm (l : List ResultRow) :
    ∀ acc, List.Perm (sortCore acc l) (acc ++ l) := by
  induction l with
  | nil => intro acc; simp [sortCore]
  | cons a l ih =>
    intro acc
    simp only [sortCore]
    exact ((ih (insertAsc a acc)).trans
      (((insertAsc_perm a acc).append_right l).trans List.perm_middle.symm))

/-- The insertion sort returns an ascending list. -/
theorem sortCore_pairwise (l : List ResultRow) :
    ∀ acc, acc.Pairwise (fun x y => x.Score ≤ y.Score) →
      (sortCore acc l).Pairwise (fun x y => x.Score ≤ y.Score) := by
  induction l with
  | nil => intro acc h; exact h
  | cons a l ih =>
    intro acc h
    exact ih (insertAsc a acc) (insertAsc_pairwise a acc h)

/-- STABILITY of the whole sort: the subsequence of rows with any fixed
score survives in input order (the accumulator's equal-score rows first,
then the input's, in input order). -/
theorem sortCore_filter (q : ℚ) (l : List ResultRow) :
    ∀ acc, acc.Pairwise (fun x y => x.Score ≤ y.Score) →
      (sortCore acc l).filter (fun r => r.Score == q)
        = acc.filter (fun r => r.Score == q) ++ l.filter (fun r => r.Score == q) := by
  induction l with
  | nil => intro acc _; simp [sortCore]
  | cons a l ih =>
    intro acc h
    simp only [sortCore]
    rw [ih (insertAsc a acc) (insertAsc_pairwise a acc h), insertAsc_filter q a acc h]
    by_cases hq : a.Score = q
    · rw [if_pos hq, List.filter_cons_of_pos (by simp [hq]), List.append_assoc,
        List.singleton_append]
    · rw [if_neg hq, List.filter_cons_of_neg (by simp [hq])]

/-- `sort_values(ascending=False)` permutes its input. -/
theorem sort_values_desc_perm (l : List ResultRow) :
    List.Perm (sort_values_desc l) l := by
  exact (List.reverse_perm (sortAscStable l)).trans (sortCore_perm l [])

/-- `sort_values(ascending=False)` is sorted descending by Score. -/
theorem sort_values_desc_pairwise (l : List ResultRow) :
    (sort_values_desc l).Pairwise (fun x y => y.Score ≤ x.Score) := by
  apply List.pairwise_reverse.mpr
  exact sortCore_pairwise l [] (List.Pairwise.nil)

/-- TIE ORDER of `sort_values(ascending=False)`: rows of any fixed score
come out in REVERSE input order (the ascending argsort is stable, and
pandas reverses it for a descending sort). -/
theorem sort_values_desc_filter (q : ℚ) (l : List ResultRow) :
    (sort_values_desc l).filter (fun r => r.Score == q)
      = (l.filter (fun r => r.Score == q)).reverse := by
  unfold sort_values_desc sortAscStable
  rw [List.filter_reverse, sortCore_filter q l [] List.Pairwise.nil, List.filter_nil,
    List.nil_append]

/-- C7 counterexample: two Long signals with EQUAL strength come out of the
ranking in REVERSE input order - the later row B outranks the earlier row A
- because pandas reverses a stable ascending argsort for a descending sort.
The claim's "first-seen wins the higher rank" predicts [A, B]. -/
theorem tie_order_reversed :
    buy_signals [rowTieA, rowTieB] TOP_N = [rowTieB, rowTieA]
    ∧ rowTieA ≠ rowTieB := by
  constructor
  · simp [buy_signals, sort_values_desc, sortAscStable, sortCore, insertAsc,
      rowTieA, rowTieB, TOP_N]
  · simp [rowTieA, rowTieB]

/-- C7 (amended): for every frame and every target count, the ranking
returns exactly the Long rows (members of the frame with Signal 1), sorted
by Score descending, truncated to the target count with no padding (length
is the min of the target and the number of qualifying rows); equal-score
rows appear in REVERSE input order (last-seen wins the higher rank). -/
theorem buy_ranking_characterised (df : List ResultRow) (n : Nat) (q : ℚ) :
    (∀ r ∈ buy_signals df n, r.Signal = 1 ∧ r ∈ df)
    ∧ (buy_signals df n).length = min n (df.filter (fun r => r.Signal == 1)).length
    ∧ (buy_signals df n).Pairwise (fun x y => y.Score ≤ x.Score)
    ∧ (sort_values_desc (df.filter (fun r => r.Signal == 1))).filter (fun r => r.Score == q)
      = ((df.filter (fun r => r.Signal == 1)).filter (fun r => r.Score == q)).reverse := by
  refine ⟨?_, ?_, ?_, sort_values_desc_filter q _⟩
  · intro r hr
    simp only [buy_signals] at hr
    have h2 : r ∈ df.filter (fun r => r.Signal == 1) :=
      (sort_values_desc_perm _).mem_iff.mp (List.mem_of_mem_take hr)
    obtain ⟨hdf, hsig⟩ := List.mem_filter.mp h2
    exact ⟨by simpa using hsig, hdf⟩
  · simp only [buy_signals]
    rw [List.length_take, (sort_values_desc_perm _).length_eq]
  · exact (sort_values_desc_pairwise _).sublist (List.take_sublist n _)

/-- Witness for C7's amended ranking facts at the two-row tie frame. -/
theorem buy_ranking_characterised_witness :
    (sort_values_desc ([rowTieA, rowTieB].filter (fun r => r.Signal == 1))).filter
        (fun r => r.Score == (5:ℚ))
      = (([rowTieA, rowTieB].filter (fun r => r.Signal == 1)).filter
          (fun r => r.Score == (5:ℚ))).reverse
    ∧ (buy_signals [rowTieA, rowTieB] 5).length
      = min 5 ([rowTieA, rowTieB].filter (fun r => r.Signal == 1)).length := by
  have h := buy_ranking_characterised [rowTieA, rowTieB] 5 5
  exact ⟨h.2.2.2, h.2.1⟩

/-- C8 (amended): an instrument whose nonempty series has fewer bars than
the longest (30-bar) lookback window is NOT excluded - it is appended to
the cycle's results with the default Neutral score (Signal 0, Score 0); its
row can consequently never rank among the promoted buy signals, whose
members all carry Signal 1.  (Only an EMPTY download is excluded.) -/
theorem short_series_neutral_row (t : String) (bars : List ℚ)
    (rest : List (String × List ℚ)) (hne : bars ≠ []) (hshort : bars.length < 30) :
    fetchLoop ((t, bars) :: rest)
      = { Stock := t, Signal := 0, Price := bars.getLastD 0, Score := 0 } :: fetchLoop rest
    ∧ ∀ (df : List ResultRow) (n : Nat),
        ({ Stock := t, Signal := 0, Price := bars.getLastD 0, Score := 0 } : ResultRow)
          ∉ buy_signals df n := by
  constructor
  · obtain ⟨x, xs, rfl⟩ := List.exists_cons_of_ne_nil hne
    have h30 : emaLast (x :: xs) 30 = none := by
      simp only [emaLast, if_pos hshort]
    have hsig : scoreInstrument (x :: xs)
        = { signal := 0, price := (x :: xs).getLastD 0, score := 0 } := by
      unfold scoreInstrument
      rw [h30]
      unfold generate_signal
      cases emaLast (x :: xs) 10 <;> cases rsiLast (x :: xs) 7 <;> rfl
    simp [fetchLoop, hsig]
  · intro df n hmem
    simp only [buy_signals] at hmem
    have h2 := (sort_values_desc_perm _).mem_iff.mp (List.mem_of_mem_take hmem)
    have h3 := (List.mem_filter.mp h2).2
    simp at h3

/-- Witness for C8's amended claim at a concrete 5-bar series. -/
theorem short_series_neutral_row_witness :
    fetchLoop [("X", [1, 2, 3, 4, 5])]
      = [{ Stock := "X", Signal := 0, Price := ([1, 2, 3, 4, 5] : List ℚ).getLastD 0,
           Score := 0 }]
    ∧ ({ Stock := "X", Signal := 0, Price := ([1, 2, 3, 4, 5] : List ℚ).getLastD 0,
         Score := 0 } : ResultRow) ∉ buy_signals [rowTieA, rowTieB] 5 := by
  have h := short_series_neutral_row "X" [1, 2, 3, 4, 5] [] (by simp) (by simp)
  exact ⟨h.1, h.2 [rowTieA, rowTieB] 5⟩

/-- Appending a lot to a ticker extends exactly that ticker's lot sequence. -/
theorem lots_appendLot (m : PositionsMap) (t : String) (p : Position) :
    lots (appendLot m t p) t = lots m t ++ [p] := by
  induction m with
  | nil => simp [appendLot, lots]
  | cons kv rest ih =>
    obtain ⟨k, l⟩ := kv
    by_cases hk : k = t
    · simp [appendLot, lots, hk]
    · simp [appendLot, lots, hk, ih]

/-- C6: on a candidate set of nonnegative strengths and positive reference
prices with strictly positive total strength, each allocation is
C x (strength / total), each share count is floor(allocation / price)
and is nonnegative, and the allocations of one sizing pass sum to at most C
(in fact exactly C). -/
theorem sizing_conserves (C : ℚ) (df : List TopSignal) (hC : 0 ≤ C)
    (hrows : ∀ r ∈ df, 0 ≤ r.Score ∧ 0 < r.BuyPrice)
    (ht : 0 < total_score df) :
    (∀ r ∈ df,
      allocationOf (some C) df r = some (C * (r.Score / total_score df))
      ∧ sharesOf (some C) df r
        = some ((⌊C * (r.Score / total_score df) / r.BuyPrice⌋ : ℤ) : ℚ)
      ∧ (0:ℚ) ≤ ((⌊C * (r.Score / total_score df) / r.BuyPrice⌋ : ℤ) : ℚ))
    ∧ (df.map (fun r => C * (r.Score / total_score df))).sum ≤ C := by
  constructor
  · intro r hr
    obtain ⟨hs, hp⟩ := hrows r hr
    have halloc : allocationOf (some C) df r = some (C * (r.Score / total_score df)) := by
      simp [allocationOf, ndiv, nmul, ht.ne']
    have hnn : 0 ≤ C * (r.Score / total_score df) / r.BuyPrice :=
      div_nonneg (mul_nonneg hC (div_nonneg hs ht.le)) hp.le
    refine ⟨halloc, ?_, ?_⟩
    · simp [sharesOf, halloc, nfdiv, hp.ne']
    · exact_mod_cast Int.floor_nonneg.mpr hnn
  · rcases df with _ | ⟨a, l⟩
    · simpa using hC
    · have hT : total_score (a :: l) = ((a :: l).map TopSignal.Score).sum := by
        simp [total_score]
      have hfun : ∀ r : TopSignal,
          C * (r.Score / total_score (a :: l)) = C / total_score (a :: l) * r.Score := by
        intro r; ring
      calc ((a :: l).map fun r => C * (r.Score / total_score (a :: l))).sum
          = ((a :: l).map fun r => C / total_score (a :: l) * r.Score).sum := by
            simp only [hfun]
        _ = C / total_score (a :: l) * ((a :: l).map TopSignal.Score).sum :=
            List.sum_map_mul_left _ _ _
        _ = C := by rw [← hT, div_mul_cancel₀ C ht.ne']
        _ ≤ C := le_refl C

/-- Witness for C6 at the spec's scenario C: capital 100000, strengths 30
and 10 split 75000 : 25000; 75000 at reference price 100 gives 750 shares. -/
theorem sizing_conserves_witness :
    allocationOf (some 100000) scenC
        { Stock := "A", BuyPrice := 100, SellPrice := 101, Score := 30 } = some 75000
    ∧ sharesOf (some 100000) scenC
        { Stock := "A", BuyPrice := 100, SellPrice := 101, Score := 30 } = some 750
    ∧ (scenC.map (fun r => (100000:ℚ) * (r.Score / total_score scenC))).sum ≤ 100000 := by
  have hT : total_score scenC = 40 := by norm_num [total_score, scenC]
  have h := sizing_conserves 100000 scenC (by norm_num)
    (by
      intro r hr
      simp only [scenC, List.mem_cons, List.not_mem_nil, or_false] at hr
      rcases hr with rfl | rfl <;> constructor <;> norm_num)
    (by rw [hT]; norm_num)
  have hA := h.1 { Stock := "A", BuyPrice := 100, SellPrice := 101, Score := 30 }
    (by simp [scenC])
  refine ⟨?_, ?_, h.2⟩
  · rw [hA.1, hT]; norm_num
  · rw [hA.2.1, hT]; norm_num

/-- C10: a ranked signal whose allocation is nonnegative but smaller than
its reference price is floored to 0 shares, yet the loop still appends a
fresh Open zero-share lot for the ticker and logs the "opened" alert; a
zero-share position is evaluated like any other by the exit check (its
trailing stop ratchets) and capital is unchanged by its evaluation - in
particular a close credits exactly 0. -/
theorem zero_share_position (st : OpenState) (row : TopSignal) (a : ℚ)
    (ha : allocationOf st.capital [row] row = some a)
    (h0 : 0 ≤ a) (hlt : a < row.BuyPrice) :
    sharesOf st.capital [row] row = some 0
    ∧ lots (open_loop st [row]).positions row.Stock
      = lots st.positions row.Stock ++ [mkPosition row.BuyPrice (some 0)]
    ∧ (open_loop st [row]).alerts = st.alerts ++ [Alert.opened row.Stock row.BuyPrice]
    ∧ (∀ (t : String) (p : ℚ) (est : ExitState) (c : ℚ) (pos : Position),
        pos.shares = some 0 → est.capital = some c →
        (check_position t p (est, pos)).1.capital = some c)
    ∧ (∀ (t : String) (p : ℚ) (est : ExitState),
        (check_position t p (est, mkPosition row.BuyPrice (some 0))).2.trailing_stop
          = max (mkPosition row.BuyPrice (some 0)).trailing_stop
              (p * (1 - STOP_LOSS / 100))) := by
  have hp : 0 < row.BuyPrice := lt_of_le_of_lt h0 hlt
  have hfl : ⌊a / row.BuyPrice⌋ = 0 :=
    Int.floor_eq_zero_iff.mpr ⟨div_nonneg h0 hp.le, (div_lt_one hp).mpr hlt⟩
  have hsh : sharesOf st.capital [row] row = some 0 := by
    simp [sharesOf, ha, nfdiv, hp.ne', hfl]
  have hopen : open_loop st [row]
      = { capital := st.capital,
          positions := appendLot st.positions row.Stock
            (mkPosition row.BuyPrice (sharesOf st.capital [row] row)),
          alerts := st.alerts ++ [Alert.opened row.Stock row.BuyPrice] } := rfl
  refine ⟨hsh, ?_, ?_, ?_, ?_⟩
  · rw [hopen]
    show lots (appendLot st.positions row.Stock
      (mkPosition row.BuyPrice (sharesOf st.capital [row] row))) row.Stock = _
    rw [hsh]
    exact lots_appendLot st.positions row.Stock (mkPosition row.BuyPrice (some 0))
  · rw [hopen]
  · intro t p est c pos hsh0 hc
    by_cases hst : pos.status = Status.Open
    · simp only [check_position, hst, if_true]
      by_cases h1 : p ≤ (ratchet pos p).trailing_stop
      · rw [if_pos h1]
        simp [nadd, nmul, ratchet_shares, hsh0, hc]
      · rw [if_neg h1]
        by_cases h2 : (ratchet pos p).take_profit ≤ p
        · rw [if_pos h2]
          simp [nadd, nmul, ratchet_shares, hsh0, hc]
        · rw [if_neg h2]
          exact hc
    · cases hs2 : pos.status with
      | Open => exact absurd hs2 hst
      | Closed =>
        rw [check_position_closed t p est pos hs2]
        exact hc
  · intro t p est
    exact check_position_trailing t p est _ rfl

/-- Witness for C10: capital 50 against one signal of strength 5 allocates
50 < price 100, so 0 shares, while the lot and the alert still appear. -/
theorem zero_share_position_witness :
    sharesOf (some 50) [{ Stock := "Z", BuyPrice := 100, SellPrice := 101, Score := 5 }]
        { Stock := "Z", BuyPrice := 100, SellPrice := 101, Score := 5 } = some 0
    ∧ (open_loop { capital := some 50, positions := [], alerts := [] }
        [{ Stock := "Z", BuyPrice := 100, SellPrice := 101, Score := 5 }]).alerts
      = [] ++ [Alert.opened "Z" 100]
    ∧ lots (open_loop { capital := some 50, positions := [], alerts := [] }
        [{ Stock := "Z", BuyPrice := 100, SellPrice := 101, Score := 5 }]).positions "Z"
      = lots ([] : PositionsMap) "Z" ++ [mkPosition 100 (some 0)] := by
  have h := zero_share_position { capital := some 50, positions := [], alerts := [] }
    { Stock := "Z", BuyPrice := 100, SellPrice := 101, Score := 5 } 50
    (by simp [allocationOf, ndiv, nmul, total_score])
    (by norm_num) (by norm_num)
  exact ⟨h.1, h.2.2.1, h.2.1⟩
